import Mathlib

/-!
Shallow embedding of the League Data Aggregation & Layout-Partitioning Engine
of the stribe-photoshop-plugin repository.

Strings from the JavaScript source are modelled as `List Char`; JavaScript
numbers arising from `Number(...)` coercions on sheet cells are modelled as
rationals (`ℚ`); JavaScript `undefined` is modelled with `Option`.
-/

namespace Stribe

/-! ### Tabular parser (`src/logoHandler.js`, `parseCSV`) -/

/-- Characters treated as whitespace by the JavaScript `String.prototype.trim`
(restricted to the ASCII whitespace characters that can occur in our model). -/
def jsWs (c : Char) : Bool :=
  c = ' ' || c = '\t' || c = '\n' || c = '\r' || c = '\x0b' || c = '\x0c'

/-- `s.trim()`: drop whitespace from the front, then from the back. -/
def trimChars (l : List Char) : List Char :=
  (((l.dropWhile jsWs).reverse.dropWhile jsWs)).reverse

/-- `s.split("\n")`: every newline is a separator. -/
def splitNL : List Char → List (List Char)
  | [] => [[]]
  | c :: rest =>
    if c = '\n' then [] :: splitNL rest
    else
      match splitNL rest with
      | [] => [[c]]
      | l :: ls => (c :: l) :: ls

/-- The character loop of `parseCSV`: `cur` is `currentValue`, `inQ` is
`inQuotes`, `acc` is `csvArray`.  A quote toggles `inQ`; a comma outside
quotes pushes the trimmed current value; any other character is appended. -/
def parseLineGo : List Char → List Char → Bool → List (List Char) → List (List Char)
  | [], cur, _, acc => acc ++ [trimChars cur]
  | c :: rest, cur, inQ, acc =>
    if c = '"' then parseLineGo rest cur (!inQ) acc
    else if c = ',' && !inQ then parseLineGo rest [] inQ (acc ++ [trimChars cur])
    else parseLineGo rest (cur ++ [c]) inQ acc

/-- Parse one line of the sheet into trimmed cells. -/
def parseLine (l : List Char) : List (List Char) :=
  parseLineGo l [] false []

/-- `parseCSV`: strip carriage returns, split on newlines, skip blank lines,
parse each remaining line. -/
def parseCSV (s : List Char) : List (List (List Char)) :=
  let lines := splitNL (s.filter (fun c => !(c = '\r')))
  (lines.filter (fun l => !(trimChars l).isEmpty)).map parseLine

/-- Modelled from the spec: the row serializer implied by the round-trip
property of §8 (the repository itself only consumes sheets, it never writes
them).  A cell containing the delimiter is wrapped in quotes; cells are
joined with commas. -/
def encodeCell (cell : List Char) : List Char :=
  if cell.contains ',' then '"' :: cell ++ ['"'] else cell

/-- Modelled from the spec: serialize a row of cells to one delimited line. -/
def serializeRow : List (List Char) → List Char
  | [] => []
  | [c] => encodeCell c
  | c :: rest => encodeCell c ++ ',' :: serializeRow rest

/-! ### Header-indexed row accessor (`src/logoHandler.js`, `createHeaderMap` / `getValue`) -/

/-- The assignment loop of `createHeaderMap`: `headerMap[headerRow[i]] = i`,
a later assignment to the same name overwriting an earlier one. -/
def createHeaderMapGo : List (List Char) → Nat → (List Char → Option Nat) → (List Char → Option Nat)
  | [], _, m => m
  | s :: rest, i, m =>
    createHeaderMapGo rest (i + 1) (fun q => if q = s then some i else m q)

/-- Build the column-name → index map from the header row. -/
def createHeaderMap (headerRow : List (List Char)) : List Char → Option Nat :=
  createHeaderMapGo headerRow 0 (fun _ => none)

/-- `getValue(row, columnName, headerMap)`: the cell at the mapped index
(`none` models the JavaScript `undefined` produced by indexing past the end
of the row), or the empty string when the column name is not in the map. -/
def getValue (row : List (List Char)) (columnName : List Char)
    (headerMap : List Char → Option Nat) : Option (List Char) :=
  match headerMap columnName with
  | some idx => row.get? idx
  | none => some []

/-! ### Join resolver (`src/logoHandler.js`, `loadSchedule` division-label loop) -/

/-- A division record; only the fields read by the join resolver and the
stats handler are retained (`conf`, `div`, `abb` — the color and short-label
columns are never consulted by the operations verified here). -/
structure DivisionInfo where
  conf : List Char
  div : List Char
  abb : List Char
deriving Repr, DecidableEq

/-- The per-label loop body of `loadSchedule`: state is
`(divName, divConf, divAbb)`, initially three empty strings; a division is
taken while the abbreviation accumulated so far is still empty and the label
equals `conf + " " + div`. -/
def resolveDivGo (label : List Char) :
    List DivisionInfo → List Char × List Char × List Char → List Char × List Char × List Char
  | [], st => st
  | d :: rest, (nm, cf, ab) =>
    let fullName := d.conf ++ ' ' :: d.div
    if ab.isEmpty && label = fullName then
      resolveDivGo label rest (d.div, d.conf, d.abb)
    else
      resolveDivGo label rest (nm, cf, ab)

/-- Resolve a schedule row's free-text division label against the division
list; returns `(division name, conference, abbreviation)`. -/
def resolveDiv (label : List Char) (divs : List DivisionInfo) :
    List Char × List Char × List Char :=
  resolveDivGo label divs ([], [], [])

/-! ### League registry resolver (`src/logoHandler.js`, `getLeagueCsvUrls`) -/

/-- The six per-league resource locations. -/
structure LeagueUrls where
  divisionUrl : List Char
  teamUrl : List Char
  scheduleUrl : List Char
  standingsUrl : List Char
  goalieUrl : List Char
  playerUrl : List Char
deriving Repr, DecidableEq

def colLEAGUE : List Char := "LEAGUE".toList
def colDIVISION : List Char := "DIVISION INFO".toList
def colTEAM : List Char := "TEAM INFO".toList
def colSCHEDULE : List Char := "SCHEDULE".toList
def colSTANDINGS : List Char := "STANDINGS".toList
def colGOALIE : List Char := "GOALIE STATS".toList
def colPLAYER : List Char := "PLAYER STATS".toList

/-- `String(getValue(row, col, headerMap) || "").trim()`. -/
def getTrimmed (row : List (List Char)) (col : List Char)
    (hm : List Char → Option Nat) : List Char :=
  trimChars ((getValue row col hm).getD [])

/-- `s.toLowerCase()`. -/
def lowerChars (l : List Char) : List Char := l.map Char.toLower

/-- The row-scanning loop of `getLeagueCsvUrls`: skip rows whose trimmed
`LEAGUE` cell is blank, stop at the first row matching the league name
case-insensitively. -/
def findLeagueRow (leagueName : List Char) (hm : List Char → Option Nat) :
    List (List (List Char)) → Option (List (List Char))
  | [] => none
  | row :: rest =>
    let leagueCell := getTrimmed row colLEAGUE hm
    if leagueCell.isEmpty then findLeagueRow leagueName hm rest
    else if lowerChars leagueCell = lowerChars leagueName then some row
    else findLeagueRow leagueName hm rest

/-- `getLeagueCsvUrls`.  The base-folder name, the per-run cache
(`leagueUrlCache`, an association list keyed by the trimmed league name) and
the outcome of fetching the master sheet are explicit arguments; the result
pairs the resolved locations with the updated cache, and a thrown
`Error(msg)` is `Except.error msg`. -/
def getLeagueCsvUrls (baseFolderName : List Char)
    (cache : List (List Char × LeagueUrls))
    (fetchResult : Except (List Char) (List Char)) :
    Except (List Char) (LeagueUrls × List (List Char × LeagueUrls)) :=
  let leagueName := trimChars baseFolderName
  if leagueName.isEmpty then
    .error ("Base folder name is missing - cannot resolve league row in master sheet.".toList)
  else
    match cache.lookup leagueName with
    | some urls => .ok (urls, cache)
    | none =>
      match fetchResult with
      | .error e => .error e
      | .ok masterCsv =>
        let rows := parseCSV masterCsv
        if rows.isEmpty then .error ("Master league sheet is empty.".toList)
        else
          let headerMap := createHeaderMap (rows.headD [])
          let found := findLeagueRow leagueName headerMap rows.tail
          let divisionUrl := match found with
            | some row => getTrimmed row colDIVISION headerMap
            | none => []
          let teamUrl := match found with
            | some row => getTrimmed row colTEAM headerMap
            | none => []
          let scheduleUrl := match found with
            | some row => getTrimmed row colSCHEDULE headerMap
            | none => []
          let standingsUrl := match found with
            | some row => getTrimmed row colSTANDINGS headerMap
            | none => []
          let goalieUrl := match found with
            | some row => getTrimmed row colGOALIE headerMap
            | none => []
          let playerUrl := match found with
            | some row => getTrimmed row colPLAYER headerMap
            | none => []
          if divisionUrl.isEmpty || teamUrl.isEmpty || scheduleUrl.isEmpty ||
              standingsUrl.isEmpty || goalieUrl.isEmpty || playerUrl.isEmpty then
            .error ("League not found or URLs missing in master league sheet.".toList)
          else
            let urls : LeagueUrls :=
              ⟨divisionUrl, teamUrl, scheduleUrl, standingsUrl, goalieUrl, playerUrl⟩
            .ok (urls, (leagueName, urls) :: cache)

/-- A cache is well formed when every entry it holds has all six locations
non-blank (the invariant maintained by `getLeagueCsvUrls`, which only ever
stores validated entries). -/
def cacheWF (cache : List (List Char × LeagueUrls)) : Prop :=
  ∀ e ∈ cache, e.2.divisionUrl ≠ [] ∧ e.2.teamUrl ≠ [] ∧ e.2.scheduleUrl ≠ [] ∧
    e.2.standingsUrl ≠ [] ∧ e.2.goalieUrl ≠ [] ∧ e.2.playerUrl ≠ []

/-! ### Leaderboard selector (`src/unnamed/part_005`, `handleStatsUpdate`) -/

/-- A player stat line as consumed by the leaderboard loops.  The sentinel
`nullPlayer` has no `fullName` property in the source, hence `Option`;
numeric cells pass through `Number(...)`, modelled as `ℚ`. -/
structure Player where
  fullName : Option String
  firstName : Option String
  lastName : Option String
  teamName : Option String
  div : Option String
  goals : ℚ
  assists : ℚ
  points : ℚ
  ppg : ℚ
deriving Repr, DecidableEq

/-- The `nullPlayer` literal of `handleStatsUpdate`. -/
def nullPlayer : Player :=
  { fullName := none, firstName := none, lastName := none, teamName := none,
    div := none, goals := 0, assists := 0, points := 0, ppg := 0 }

/-- The inner scan filling one slot of the top-points board: a candidate is
taken when its full name occupies no earlier slot and it has strictly more
points, or equal points and strictly more goals, than the current holder. -/
def fillPointsSlot (pool : List Player) (prev : List Player) : Player :=
  pool.foldl
    (fun cur cand =>
      if (∀ p ∈ prev, ¬ cand.fullName = p.fullName) ∧
          (cur.points < cand.points ∨ (cand.points = cur.points ∧ cur.goals < cand.goals))
      then cand else cur)
    nullPlayer

/-- The five-slot top-points board (`topPoints`). -/
def topPoints (pool : List Player) : List Player :=
  let s0 := fillPointsSlot pool []
  let s1 := fillPointsSlot pool [s0]
  let s2 := fillPointsSlot pool [s0, s1]
  let s3 := fillPointsSlot pool [s0, s1, s2]
  let s4 := fillPointsSlot pool [s0, s1, s2, s3]
  [s0, s1, s2, s3, s4]

/-- One slot of the top-goals board: strictly more goals, name not in an
earlier slot (no tie-break key). -/
def fillGoalsSlot (pool : List Player) (prev : List Player) : Player :=
  pool.foldl
    (fun cur cand =>
      if cur.goals < cand.goals ∧ (∀ p ∈ prev, ¬ cand.fullName = p.fullName)
      then cand else cur)
    nullPlayer

/-- The three-slot top-goals board (`topGoals`). -/
def topGoals (pool : List Player) : List Player :=
  let s0 := fillGoalsSlot pool []
  let s1 := fillGoalsSlot pool [s0]
  let s2 := fillGoalsSlot pool [s0, s1]
  [s0, s1, s2]

/-- One slot of the top points-per-game board. -/
def fillPPGSlot (pool : List Player) (prev : List Player) : Player :=
  pool.foldl
    (fun cur cand =>
      if cur.ppg < cand.ppg ∧ (∀ p ∈ prev, ¬ cand.fullName = p.fullName)
      then cand else cur)
    nullPlayer

/-- The three-slot top points-per-game board (`topPPG`). -/
def topPPG (pool : List Player) : List Player :=
  let s0 := fillPPGSlot pool []
  let s1 := fillPPGSlot pool [s0]
  let s2 := fillPPGSlot pool [s0, s1]
  [s0, s1, s2]

/-- A goalie stat line. -/
structure Goalie where
  fullName : Option String
  firstName : Option String
  lastName : Option String
  teamName : Option String
  div : Option String
  GA : ℚ
  GAA : ℚ
  GP : ℚ
deriving Repr, DecidableEq

/-- The `nullGoalie` literal of `handleStatsUpdate`: note `GA` and `GAA`
are `99`, not `0`. -/
def nullGoalie : Goalie :=
  { fullName := none, firstName := none, lastName := none, teamName := none,
    div := none, GA := 99, GAA := 99, GP := 0 }

/-- `GPmax`: maximum games played over the pool, starting from `0`. -/
def gpMax (pool : List Goalie) : ℚ :=
  pool.foldl (fun acc g => if acc < g.GP then g.GP else acc) 0

/-- `0.44 * x`, written with `mkRat` so that it evaluates by kernel
reduction (Mathlib's `Rat.mul` is irreducible); `ratScale44_eq` below proves
it equal to `(44 / 100 : ℚ) * x`. -/
def ratScale44 (x : ℚ) : ℚ := mkRat (44 * x.num) (100 * x.den)

/-- `x + 1/2`, written with `mkRat` for the same reason; `ratAddHalf_eq`
below proves it equal to `x + 1 / 2`. -/
def ratAddHalf (x : ℚ) : ℚ := mkRat (2 * x.num + x.den) (2 * x.den)

/-- `Math.round(x)` for the arguments arising here: `⌊x + 1/2⌋` (`jsRound_eq`
below).  For `x = 0.44 · GPmax` the exact rational value is never within
`1/50` of a half-integer, so the double-precision computation in the source
agrees with this exact one. -/
def jsRound (x : ℚ) : ℤ := Rat.floor (ratAddHalf x)

/-- `GPmin = Math.round(0.44 * GPmax)`. -/
def gpMin (pool : List Goalie) : ℚ :=
  ((jsRound (ratScale44 (gpMax pool)) : ℤ) : ℚ)

/-- One slot of the top-GAA board: strictly smaller goals-against average,
at least `minGP` games played, name not in an earlier slot. -/
def fillGAASlot (pool : List Goalie) (minGP : ℚ) (prev : List Goalie) : Goalie :=
  pool.foldl
    (fun cur cand =>
      if cand.GAA < cur.GAA ∧ minGP ≤ cand.GP ∧ (∀ p ∈ prev, ¬ cand.fullName = p.fullName)
      then cand else cur)
    nullGoalie

/-- The three-slot top-GAA board (`topGAA`), with the eligibility floor
computed from the pool's own maximum games played. -/
def topGAA (pool : List Goalie) : List Goalie :=
  let minGP := gpMin pool
  let s0 := fillGAASlot pool minGP []
  let s1 := fillGAASlot pool minGP [s0]
  let s2 := fillGAASlot pool minGP [s0, s1]
  [s0, s1, s2]

/-! ### Balanced chunk partitioner (`src/standings.js`, `handleStandingsUpdate`) -/

/-- `Math.ceil(n / m)` for naturals with `m ≥ 1`. -/
def ceilDiv (n m : Nat) : Nat := (n + m - 1) / m

/-- The chunking loop of `handleStandingsUpdate`: iterate over the chunk
indices, slicing `standings.slice(startIndex, endIndex)` where the last
chunk runs to the end of the list, and pushing only non-empty slices. -/
def chunkLoop {α : Type} (standings : List α) (numOfTeams chunkSize numChunks : Nat) :
    List Nat → Nat → List (List α) → List (List α)
  | [], _, acc => acc
  | c :: cs, startIndex, acc =>
    let endIndex := if c = numChunks - 1 then numOfTeams else startIndex + chunkSize
    let chunk := (standings.take endIndex).drop startIndex
    chunkLoop standings numOfTeams chunkSize numChunks cs endIndex
      (if chunk.isEmpty then acc else acc ++ [chunk])

/-- Split the standings into balanced chunks, no chunk larger than
`maxPerChunk` (the source fixes `MAX_TEAMS_PER_CHUNK = 9`; the constant is a
parameter here). -/
def chunkStandings {α : Type} (standings : List α) (maxPerChunk : Nat) : List (List α) :=
  let numOfTeams := standings.length
  if numOfTeams ≤ maxPerChunk then [standings]
  else
    let numChunks := ceilDiv numOfTeams maxPerChunk
    let chunkSize := ceilDiv numOfTeams numChunks
    chunkLoop standings numOfTeams chunkSize numChunks (List.range numChunks) 0 []

/-! ### Concrete data used by the claims -/

/-- Player A of the spec's top-points scenario. -/
def playerA : Player :=
  { fullName := some "A", firstName := some "A", lastName := none, teamName := none,
    div := none, goals := 5, assists := 0, points := 10, ppg := 0 }

/-- Player B of the spec's top-points scenario. -/
def playerB : Player :=
  { fullName := some "B", firstName := some "B", lastName := none, teamName := none,
    div := none, goals := 7, assists := 0, points := 10, ppg := 0 }

/-- Player C of the spec's top-points scenario. -/
def playerC : Player :=
  { fullName := some "C", firstName := some "C", lastName := none, teamName := none,
    div := none, goals := 9, assists := 0, points := 9, ppg := 0 }

/-- The spec's concrete top-points pool. -/
def pointsPool : List Player := [playerA, playerB, playerC]

/-- A goalie with 20 games played (GAA 2). -/
def goalie20 : Goalie :=
  { fullName := some "G20", firstName := none, lastName := none, teamName := none,
    div := none, GA := 40, GAA := 2, GP := 20 }

/-- A goalie with 8 games played and the numerically best GAA 0.50. -/
def goalie8 : Goalie :=
  { fullName := some "G8", firstName := none, lastName := none, teamName := none,
    div := none, GA := 4, GAA := mkRat 1 2, GP := 8 }

/-- A goalie with 15 games played (GAA 3). -/
def goalie15 : Goalie :=
  { fullName := some "G15", firstName := none, lastName := none, teamName := none,
    div := none, GA := 45, GAA := 3, GP := 15 }

/-- A pool whose maximum games played is 20. -/
def gaaPool20 : List Goalie := [goalie20, goalie8, goalie15]

/-- A goalie with 5 games played (GAA 3). -/
def goalie5 : Goalie :=
  { fullName := some "G5", firstName := none, lastName := none, teamName := none,
    div := none, GA := 15, GAA := 3, GP := 5 }

/-- A goalie with 2 games played and GAA 0.50. -/
def goalie2 : Goalie :=
  { fullName := some "G2", firstName := none, lastName := none, teamName := none,
    div := none, GA := 1, GAA := mkRat 1 2, GP := 2 }

/-- A pool whose maximum games played is 5: here the code's rounded floor
(2) differs from the ceiling floor (3). -/
def gaaPool5 : List Goalie := [goalie5, goalie2]

/-! ### Auxiliary notions used by the claim statements -/

/-- A string has no leading and no trailing whitespace. -/
def noWsEnds (l : List Char) : Bool :=
  (l.head?.all (fun c => !jsWs c)) && (l.getLast?.all (fun c => !jsWs c))

/-- A cell that the round-trip property can hold for: already trimmed, and
free of quote, newline and carriage-return characters. -/
def roundTripCell (c : List Char) : Prop :=
  trimChars c = c ∧ ∀ x ∈ c, x ≠ '"' ∧ x ≠ '\n' ∧ x ≠ '\r'

instance (c : List Char) : Decidable (roundTripCell c) := by
  unfold roundTripCell; infer_instance

/-- The resolver threw. -/
def throws {ε α : Type} (r : Except ε α) : Prop :=
  ∃ e, r = Except.error e

/-- The spec's wording of the slot-fill rule: a candidate replaces the
current holder exactly when it has strictly more points, or equal points and
strictly more goals, and its full name does not already occupy an earlier
slot. -/
def specReplaces (earlier : List Player) (cand cur : Player) : Prop :=
  (cur.points < cand.points ∨ (cand.points = cur.points ∧ cur.goals < cand.goals)) ∧
    cand.fullName ∉ earlier.map Player.fullName

instance (earlier : List Player) (cand cur : Player) :
    Decidable (specReplaces earlier cand cur) := by
  unfold specReplaces; infer_instance

/-- Slot filling as described by the spec. -/
def specFillSlot (pool : List Player) (earlier : List Player) : Player :=
  pool.foldl (fun cur cand => if specReplaces earlier cand cur then cand else cur) nullPlayer

/-- The points leaderboard as described by the spec: each of the five slots
is filled by a scan of the whole pool with the rule above. -/
def specTopPoints (pool : List Player) : List Player :=
  let s0 := specFillSlot pool []
  let s1 := specFillSlot pool [s0]
  let s2 := specFillSlot pool [s0, s1]
  let s3 := specFillSlot pool [s0, s1, s2]
  let s4 := specFillSlot pool [s0, s1, s2, s3]
  [s0, s1, s2, s3, s4]

/-- First division of the join-resolver counterexample: it matches the label
`"A B"` but its abbreviation is blank. -/
def divBlankAbb : DivisionInfo := { conf := ['A'], div := ['B'], abb := [] }

/-- Second division of the join-resolver counterexample: same label, with
abbreviation `"X"`. -/
def divWithAbb : DivisionInfo := { conf := ['A'], div := ['B'], abb := ['X'] }

/-! ## Supporting lemmas -/

theorem ratScale44_eq (x : ℚ) : ratScale44 x = (44 / 100 : ℚ) * x := by
  rw [Rat.mul_eq_mkRat, ratScale44]
  norm_num
  rw [Rat.mkRat_eq_divInt, Rat.mkRat_eq_divInt, Rat.divInt_eq_div, Rat.divInt_eq_div]
  push_cast
  rw [show ((44 : ℚ) * x.num) = 4 * (11 * x.num) by ring,
    show ((100 : ℚ) * x.den) = 4 * (25 * x.den) by ring,
    mul_div_mul_left _ _ (by norm_num : (4 : ℚ) ≠ 0)]

theorem ratAddHalf_eq (x : ℚ) : ratAddHalf x = x + 1 / 2 := by
  have hd : ((x.den : ℚ)) ≠ 0 := Nat.cast_ne_zero.mpr x.den_nz
  rw [ratAddHalf, Rat.mkRat_eq_divInt, Rat.divInt_eq_div]
  push_cast
  conv_rhs => rw [← Rat.num_div_den x]
  field_simp
  ring

theorem intFloor_eq_ratFloor (q : ℚ) : ⌊q⌋ = Rat.floor q := by
  rw [Rat.floor_def, Rat.floor_def']

theorem jsRound_eq (x : ℚ) : jsRound x = ⌊x + 1 / 2⌋ := by
  rw [jsRound, ← intFloor_eq_ratFloor, ratAddHalf_eq]

theorem gpMin_eq (pool : List Goalie) :
    gpMin pool = ((⌊(44 / 100 : ℚ) * gpMax pool + 1 / 2⌋ : ℤ) : ℚ) := by
  rw [gpMin, jsRound_eq, ratScale44_eq]

theorem foldl_mem_or_init {β : Type} (step : β → β → β)
    (hstep : ∀ cur cand, step cur cand = cur ∨ step cur cand = cand)
    (l : List β) (init : β) : l.foldl step init = init ∨ l.foldl step init ∈ l := by
  induction l generalizing init with
  | nil => exact Or.inl rfl
  | cons x t ih =>
    simp only [List.foldl_cons]
    rcases ih (step init x) with h | h
    · rcases hstep init x with h' | h'
      · exact Or.inl (by rw [h, h'])
      · exact Or.inr (by rw [h, h']; exact List.mem_cons_self x t)
    · exact Or.inr (List.mem_cons_of_mem x h)

theorem foldl_preserve {β : Type} (step : β → β → β) (Q : β → Prop)
    (hstep : ∀ cur cand, Q cur → Q (step cur cand))
    (l : List β) (init : β) (h : Q init) : Q (l.foldl step init) := by
  induction l generalizing init with
  | nil => exact h
  | cons x t ih => exact ih _ (hstep _ _ h)

theorem createHeaderMapGo_not_mem (name : List Char) (header : List (List Char)) :
    ∀ (i : Nat) (m : List Char → Option Nat), name ∉ header →
      createHeaderMapGo header i m name = m name := by
  induction header with
  | nil => intro i m _; rfl
  | cons s rest ih =>
    intro i m hmem
    have hns : ¬ name = s := fun h => hmem (h ▸ List.mem_cons_self s rest)
    have hnr : name ∉ rest := fun h => hmem (List.mem_cons_of_mem s h)
    rw [createHeaderMapGo, ih (i + 1) _ hnr]
    simp [hns]

/-! ## Claim theorems -/

/-- C9: for every row and every header row that does not contain the column
name being looked up, the header-indexed accessor returns the empty string
for that column name. -/
theorem c9_missing_column (row : List (List Char)) (name : List Char)
    (header : List (List Char)) (hname : name ∉ header) :
    getValue row name (createHeaderMap header) = some [] := by
  have h : createHeaderMap header name = none :=
    createHeaderMapGo_not_mem name header 0 _ hname
  simp [getValue, h]

/-- Witness for C9 at a concrete header, column name and row. -/
theorem c9_missing_column_witness :
    (['A'] : List Char) ∉ ([['B'], ['C']] : List (List Char)) ∧
      getValue [['x'], ['y']] ['A'] (createHeaderMap [['B'], ['C']]) = some [] :=
  ⟨by decide, c9_missing_column [['x'], ['y']] ['A'] [['B'], ['C']] (by decide)⟩

/-- C10: when the column name is mapped to an index past the end of the row,
the accessor returns `undefined` (`none`), not the empty string. -/
theorem c10_short_row (header row : List (List Char)) (name : List Char) (idx : Nat)
    (hidx : createHeaderMap header name = some idx) (hrow : row.length ≤ idx) :
    getValue row name (createHeaderMap header) = none := by
  simp [getValue, hidx, hrow]

/-- Witness for C10: a one-column header with an empty row. -/
theorem c10_short_row_witness :
    createHeaderMap [['A']] ['A'] = some 0 ∧ ([] : List (List Char)).length ≤ 0 ∧
      getValue [] ['A'] (createHeaderMap [['A']]) = none :=
  ⟨by decide, by decide, c10_short_row [['A']] [] ['A'] 0 (by decide) (by decide)⟩

theorem resolveDivGo_no_match (label : List Char) (l : List DivisionInfo)
    (h : ∀ d ∈ l, label ≠ d.conf ++ ' ' :: d.div) :
    ∀ st, resolveDivGo label l st = st := by
  induction l with
  | nil => intro st; rfl
  | cons d rest ih =>
    intro ⟨nm, cf, ab⟩
    have hd : ¬ label = d.conf ++ ' ' :: d.div := h d (List.mem_cons_self d rest)
    rw [resolveDivGo, if_neg (by simp [hd])]
    exact ih (fun e he => h e (List.mem_cons_of_mem d he)) _

theorem resolveDivGo_locked (label : List Char) (l : List DivisionInfo)
    (nm cf ab : List Char) (h : ab ≠ []) :
    resolveDivGo label l (nm, cf, ab) = (nm, cf, ab) := by
  induction l with
  | nil => rfl
  | cons d rest ih =>
    have hab : ab.isEmpty = false := by
      cases ab with
      | nil => exact absurd rfl h
      | cons _ _ => rfl
    rw [resolveDivGo, if_neg (by simp [hab])]
    exact ih

theorem resolveDivGo_append (label : List Char) (l1 l2 : List DivisionInfo) :
    ∀ st, resolveDivGo label (l1 ++ l2) st = resolveDivGo label l2 (resolveDivGo label l1 st) := by
  induction l1 with
  | nil => intro st; rfl
  | cons d rest ih =>
    intro ⟨nm, cf, ab⟩
    rw [List.cons_append, resolveDivGo, resolveDivGo]
    by_cases hc : (ab.isEmpty && decide (label = d.conf ++ ' ' :: d.div)) = true
    · simp only [hc, if_true]; exact ih _
    · simp only [Bool.not_eq_true] at hc
      simp only [hc, if_false]; exact ih _

/-- C8 (amended): the join resolver returns empty fields when no division
matches the label; and it returns the fields of the first matching division
provided that division's abbreviation is non-blank (a matching division with
a blank abbreviation can be overwritten by a later match — see the
counterexample). -/
theorem c8_join_resolver (label : List Char) (divs : List DivisionInfo) :
    ((∀ d ∈ divs, label ≠ d.conf ++ ' ' :: d.div) → resolveDiv label divs = ([], [], [])) ∧
    (∀ (pre : List DivisionInfo) (d : DivisionInfo) (post : List DivisionInfo),
      divs = pre ++ d :: post →
      (∀ e ∈ pre, label ≠ e.conf ++ ' ' :: e.div) →
      label = d.conf ++ ' ' :: d.div →
      d.abb ≠ [] →
      resolveDiv label divs = (d.div, d.conf, d.abb)) := by
  constructor
  · intro h
    exact resolveDivGo_no_match label divs h _
  · intro pre d post hsplit hpre hlabel habb
    rw [resolveDiv, hsplit, resolveDivGo_append, resolveDivGo_no_match label pre hpre,
      resolveDivGo, if_pos (by simp [hlabel])]
    exact resolveDivGo_locked label post _ _ _ habb

/-- Witness for C8 at a concrete label and division list. -/
theorem c8_join_resolver_witness :
    resolveDiv ['X'] [divWithAbb] = ([], [], []) ∧
      resolveDiv ['A', ' ', 'B'] [divWithAbb] = (['B'], ['A'], ['X']) :=
  ⟨(c8_join_resolver ['X'] [divWithAbb]).1 (by decide),
    (c8_join_resolver ['A', ' ', 'B'] [divWithAbb]).2 [] divWithAbb [] rfl
      (by intro e he; cases he) (by decide) (by decide)⟩

/-- C8 counterexample: with a matching division whose abbreviation is blank
followed by a second matching division, the resolver does not return the
first matching division's fields. -/
theorem c8_counterexample :
    (['A', ' ', 'B'] : List Char) = divBlankAbb.conf ++ ' ' :: divBlankAbb.div ∧
      resolveDiv ['A', ' ', 'B'] [divBlankAbb, divWithAbb] ≠
        (divBlankAbb.div, divBlankAbb.conf, divBlankAbb.abb) := by
  exact ⟨by decide, by decide⟩

theorem fillPointsSlot_eq_spec (pool prev : List Player) :
    fillPointsSlot pool prev = specFillSlot pool prev := by
  unfold fillPointsSlot specFillSlot
  congr 1
  funext cur cand
  apply if_congr ?_ rfl rfl
  constructor
  · rintro ⟨hdup, hbetter⟩
    refine ⟨hbetter, ?_⟩
    intro hmem
    rcases List.mem_map.mp hmem with ⟨p, hp, hfp⟩
    exact hdup p hp hfp.symm
  · rintro ⟨hbetter, hnmem⟩
    refine ⟨?_, hbetter⟩
    intro p hp heq
    exact hnmem (List.mem_map.mpr ⟨p, hp, heq.symm⟩)

/-- C3: each slot of the points leaderboard is filled by a scan of the whole
pool, replacing the holder exactly when the candidate has strictly more
points, or equal points and strictly more goals, and its full name occupies
no earlier slot; on the spec's concrete pool the first two slots are
`[B, A]`. -/
theorem c3_points_rule :
    (∀ pool : List Player, topPoints pool = specTopPoints pool) ∧
    (topPoints pointsPool).take 2 = [playerB, playerA] := by
  refine ⟨fun pool => ?_, by decide⟩
  simp only [topPoints, specTopPoints, fillPointsSlot_eq_spec]

theorem fillPointsSlot_mem (pool prev : List Player) :
    fillPointsSlot pool prev = nullPlayer ∨ fillPointsSlot pool prev ∈ pool := by
  unfold fillPointsSlot
  exact foldl_mem_or_init _
    (fun cur cand => by split; exacts [Or.inr rfl, Or.inl rfl]) pool nullPlayer

theorem fillGoalsSlot_mem (pool prev : List Player) :
    fillGoalsSlot pool prev = nullPlayer ∨ fillGoalsSlot pool prev ∈ pool := by
  unfold fillGoalsSlot
  exact foldl_mem_or_init _
    (fun cur cand => by split; exacts [Or.inr rfl, Or.inl rfl]) pool nullPlayer

theorem fillPPGSlot_mem (pool prev : List Player) :
    fillPPGSlot pool prev = nullPlayer ∨ fillPPGSlot pool prev ∈ pool := by
  unfold fillPPGSlot
  exact foldl_mem_or_init _
    (fun cur cand => by split; exacts [Or.inr rfl, Or.inl rfl]) pool nullPlayer

theorem fillGAASlot_mem (pool : List Goalie) (m : ℚ) (prev : List Goalie) :
    fillGAASlot pool m prev = nullGoalie ∨
      (fillGAASlot pool m prev ∈ pool ∧ m ≤ (fillGAASlot pool m prev).GP) := by
  unfold fillGAASlot
  have hchoice := foldl_mem_or_init
    (fun cur cand =>
      if cand.GAA < cur.GAA ∧ m ≤ cand.GP ∧ (∀ p ∈ prev, ¬ cand.fullName = p.fullName)
      then cand else cur)
    (fun cur cand => by dsimp only; split; exacts [Or.inr rfl, Or.inl rfl]) pool nullGoalie
  have hmin := foldl_preserve
    (fun cur cand =>
      if cand.GAA < cur.GAA ∧ m ≤ cand.GP ∧ (∀ p ∈ prev, ¬ cand.fullName = p.fullName)
      then cand else cur)
    (fun cur => cur = nullGoalie ∨ m ≤ cur.GP)
    (fun cur cand hq => by
      dsimp only
      split
      · next h => exact Or.inr h.2.1
      · exact hq)
    pool nullGoalie (Or.inl rfl)
  rcases hchoice with h | h
  · exact Or.inl h
  · rcases hmin with h2 | h2
    · exact Or.inl h2
    · exact Or.inr ⟨h, h2⟩

/-- C2 (amended): the GAA eligibility floor is `Math.round(0.44 · maxGP)`
(round half up), not the ceiling; every goalie strictly below that floor is
excluded from every slot; with pool maximum GP 20 the floor is still 9 and a
GP-8 goalie with the numerically best GAA 0.50 never appears. -/
theorem c2_gaa_floor (pool : List Goalie) :
    gpMin pool = ((⌊(44 / 100 : ℚ) * gpMax pool + 1 / 2⌋ : ℤ) : ℚ) ∧
    (∀ g ∈ topGAA pool, g = nullGoalie ∨ (g ∈ pool ∧ gpMin pool ≤ g.GP)) ∧
    gpMax gaaPool20 = 20 ∧ gpMin gaaPool20 = 9 ∧
    goalie8.GP = 8 ∧ goalie8.GAA = mkRat 1 2 ∧ goalie8 ∉ topGAA gaaPool20 := by
  refine ⟨gpMin_eq pool, ?_, by decide, by decide, by decide, by decide, by decide⟩
  intro g hg
  simp only [topGAA, List.mem_cons, List.not_mem_nil, or_false] at hg
  rcases hg with rfl | rfl | rfl
  · exact fillGAASlot_mem pool (gpMin pool) _
  · exact fillGAASlot_mem pool (gpMin pool) _
  · exact fillGAASlot_mem pool (gpMin pool) _

/-- Witness for C2 at the concrete 20-games pool. -/
theorem c2_gaa_floor_witness :
    goalie20 ∈ topGAA gaaPool20 ∧
      (goalie20 = nullGoalie ∨ (goalie20 ∈ gaaPool20 ∧ gpMin gaaPool20 ≤ goalie20.GP)) :=
  ⟨by decide, (c2_gaa_floor gaaPool20).2.1 goalie20 (by decide)⟩

/-- C2 counterexample: with pool maximum GP 5 the code's floor is
`round(2.2) = 2`, not `ceil(2.2) = 3`, and a goalie with GP 2 — strictly
below the claimed ceiling floor — does appear in the leaderboard. -/
theorem c2_gaa_floor_counterexample :
    goalie2 ∈ topGAA gaaPool5 ∧
      goalie2.GP < ((⌈(44 / 100 : ℚ) * gpMax gaaPool5⌉ : ℤ) : ℚ) ∧
      gpMin gaaPool5 ≠ ((⌈(44 / 100 : ℚ) * gpMax gaaPool5⌉ : ℤ) : ℚ) := by
  have hmax : gpMax gaaPool5 = 5 := by decide
  have hceil : (⌈(44 / 100 : ℚ) * gpMax gaaPool5⌉ : ℤ) = 3 := by
    rw [hmax, Int.ceil_eq_iff]
    norm_num
  have hgp : goalie2.GP = 2 := by decide
  have hmin : gpMin gaaPool5 = 2 := by decide
  refine ⟨by decide, ?_, ?_⟩
  · rw [hgp, hceil]; norm_num
  · rw [hmin, hceil]; norm_num

/-- C7 (amended): every leaderboard always has its fixed number of slots,
each slot holds either the sentinel or a member of the pool, and an empty
pool yields all-sentinel boards; the player sentinel's name fields are
absent and its numeric fields zero, while the goalie sentinel's name fields
are absent, its GP is zero, but its GA and GAA are 99. -/
theorem c7_null_padding :
    (∀ pool : List Player,
      (topPoints pool).length = 5 ∧ (topGoals pool).length = 3 ∧ (topPPG pool).length = 3 ∧
      (∀ x ∈ topPoints pool, x = nullPlayer ∨ x ∈ pool) ∧
      (∀ x ∈ topGoals pool, x = nullPlayer ∨ x ∈ pool) ∧
      (∀ x ∈ topPPG pool, x = nullPlayer ∨ x ∈ pool)) ∧
    (∀ pool : List Goalie, (topGAA pool).length = 3 ∧
      (∀ x ∈ topGAA pool, x = nullGoalie ∨ x ∈ pool)) ∧
    topPoints [] = [nullPlayer, nullPlayer, nullPlayer, nullPlayer, nullPlayer] ∧
    topGoals [] = [nullPlayer, nullPlayer, nullPlayer] ∧
    topPPG [] = [nullPlayer, nullPlayer, nullPlayer] ∧
    topGAA [] = [nullGoalie, nullGoalie, nullGoalie] ∧
    nullPlayer.fullName = none ∧ nullPlayer.firstName = none ∧ nullPlayer.lastName = none ∧
    nullPlayer.teamName = none ∧ nullPlayer.goals = 0 ∧ nullPlayer.assists = 0 ∧
    nullPlayer.points = 0 ∧ nullPlayer.ppg = 0 ∧
    nullGoalie.fullName = none ∧ nullGoalie.firstName = none ∧ nullGoalie.lastName = none ∧
    nullGoalie.teamName = none ∧ nullGoalie.GP = 0 ∧ nullGoalie.GA = 99 ∧ nullGoalie.GAA = 99 := by
  refine ⟨fun pool => ⟨rfl, rfl, rfl, ?_, ?_, ?_⟩, fun pool => ⟨rfl, ?_⟩,
    by decide, by decide, by decide, by decide,
    rfl, rfl, rfl, rfl, rfl, rfl, rfl, rfl, rfl, rfl, rfl, rfl, rfl, rfl, rfl⟩
  · intro x hx
    simp only [topPoints, List.mem_cons, List.not_mem_nil, or_false] at hx
    rcases hx with rfl | rfl | rfl | rfl | rfl <;> exact fillPointsSlot_mem pool _
  · intro x hx
    simp only [topGoals, List.mem_cons, List.not_mem_nil, or_false] at hx
    rcases hx with rfl | rfl | rfl <;> exact fillGoalsSlot_mem pool _
  · intro x hx
    simp only [topPPG, List.mem_cons, List.not_mem_nil, or_false] at hx
    rcases hx with rfl | rfl | rfl <;> exact fillPPGSlot_mem pool _
  · intro x hx
    simp only [topGAA, List.mem_cons, List.not_mem_nil, or_false] at hx
    rcases hx with rfl | rfl | rfl
    · rcases fillGAASlot_mem pool (gpMin pool) _ with h | h
      · exact Or.inl h
      · exact Or.inr h.1
    · rcases fillGAASlot_mem pool (gpMin pool) _ with h | h
      · exact Or.inl h
      · exact Or.inr h.1
    · rcases fillGAASlot_mem pool (gpMin pool) _ with h | h
      · exact Or.inl h
      · exact Or.inr h.1

/-- Witness for C7 at the concrete points pool. -/
theorem c7_null_padding_witness :
    playerB ∈ topPoints pointsPool ∧ (playerB = nullPlayer ∨ playerB ∈ pointsPool) :=
  ⟨by decide, (c7_null_padding.1 pointsPool).2.2.2.1 playerB (by decide)⟩

/-- C7 counterexample: on an empty goalie pool every slot holds the goalie
sentinel, whose GAA field is 99, not 0 — so the sentinel's numeric fields
are not all zero as claimed. -/
theorem c7_null_padding_counterexample :
    nullGoalie ∈ topGAA ([] : List Goalie) ∧ nullGoalie.GAA ≠ 0 :=
  ⟨by decide, by decide⟩

theorem dropWhile_head_not {β : Type} (p : β → Bool) (l : List β) :
    ∀ x, (l.dropWhile p).head? = some x → p x = false := by
  induction l with
  | nil => intro x hx; cases hx
  | cons c t ih =>
    intro x hx
    by_cases hc : p c = true
    · rw [List.dropWhile_cons_of_pos hc] at hx
      exact ih x hx
    · rw [List.dropWhile_cons_of_neg hc] at hx
      cases hx
      exact Bool.eq_false_iff.mpr hc

theorem noWsEnds_trimChars (l : List Char) : noWsEnds (trimChars l) = true := by
  unfold trimChars
  cases hX : (l.dropWhile jsWs).reverse.dropWhile jsWs with
  | nil => rfl
  | cons x xs =>
    have hxws : jsWs x = false :=
      dropWhile_head_not jsWs (l.dropWhile jsWs).reverse x (by rw [hX]; rfl)
    have hlast : ((x :: xs).reverse).getLast? = some x := by
      rw [List.getLast?_reverse]; rfl
    have hpre : (x :: xs).reverse <+: l.dropWhile jsWs := by
      have hsuf : x :: xs <:+ (l.dropWhile jsWs).reverse := hX ▸ List.dropWhile_suffix _
      have := List.reverse_prefix.mpr hsuf
      rwa [List.reverse_reverse] at this
    cases hrev : (x :: xs).reverse with
    | nil => exact absurd (List.reverse_eq_nil_iff.mp hrev) (List.cons_ne_nil x xs)
    | cons c t =>
      have hc : (l.dropWhile jsWs).head? = some c := by
        rcases hpre with ⟨r, hr⟩
        rw [hrev] at hr
        rw [← hr]
        rfl
      have hcws : jsWs c = false := dropWhile_head_not jsWs l c hc
      rw [hrev] at hlast
      unfold noWsEnds
      rw [hlast]
      simp [hcws, hxws]

theorem parseLineGo_cells (input : List Char) :
    ∀ (cur : List Char) (inQ : Bool) (acc : List (List Char)),
      ∃ suf, parseLineGo input cur inQ acc = acc ++ suf ∧ suf ≠ [] ∧
        ∀ cell ∈ suf, ∃ raw, cell = trimChars raw := by
  induction input with
  | nil =>
    intro cur inQ acc
    exact ⟨[trimChars cur], rfl, by simp, by
      intro cell hc
      rw [List.mem_singleton] at hc
      exact ⟨cur, hc⟩⟩
  | cons c rest ih =>
    intro cur inQ acc
    rw [parseLineGo]
    by_cases h1 : c = '"'
    · rw [if_pos h1]
      exact ih cur (!inQ) acc
    · rw [if_neg h1]
      by_cases h2 : (decide (c = ',') && !inQ) = true
      · rw [if_pos h2]
        rcases ih [] inQ (acc ++ [trimChars cur]) with ⟨suf, heq, _, hcells⟩
        refine ⟨trimChars cur :: suf, by rw [heq]; simp, by simp, ?_⟩
        intro cell hc
        rcases List.mem_cons.mp hc with rfl | hc
        · exact ⟨cur, rfl⟩
        · exact hcells cell hc
      · rw [if_neg h2]
        exact ih (cur ++ [c]) inQ acc

theorem filter_cr_idem (s : List Char) :
    (s.filter (fun c => !(c = '\r'))).filter (fun c => !(c = '\r')) =
      s.filter (fun c => !(c = '\r')) := by
  induction s with
  | nil => rfl
  | cons c t ih =>
    by_cases hc : c = '\r'
    · simp [List.filter_cons, hc, ih]
    · simp [List.filter_cons, hc, ih]

/-- C5: the parser is a total function of the input text: it is insensitive
to carriage returns already stripped, every produced row is non-empty with
every cell free of leading/trailing whitespace, exactly the non-blank lines
produce rows, commas split only outside quoted spans, and an unterminated
quote quotes the rest of the line. -/
theorem c5_parser_total (s : List Char) :
    parseCSV s = parseCSV (s.filter (fun c => !(c = '\r'))) ∧
    (∀ row ∈ parseCSV s, row ≠ [] ∧ ∀ cell ∈ row, noWsEnds cell = true) ∧
    (parseCSV s).length = ((splitNL (s.filter (fun c => !(c = '\r')))).filter
      (fun l => !(trimChars l).isEmpty)).length ∧
    parseCSV ('a' :: '\n' :: '\n' :: ' ' :: '\n' :: 'b' :: []) = [[['a']], [['b']]] ∧
    parseCSV ('a' :: ',' :: '"' :: 'b' :: ',' :: 'c' :: []) = [[['a'], ['b', ',', 'c']]] ∧
    parseCSV ('a' :: ',' :: ' ' :: '"' :: 'b' :: ',' :: 'c' :: '"' :: ' ' :: ',' :: 'd' :: []) =
      [[['a'], ['b', ',', 'c'], ['d']]] := by
  refine ⟨?_, ?_, ?_, by decide, by decide, by decide⟩
  · simp only [parseCSV]
    rw [filter_cr_idem]
  · intro row hrow
    simp only [parseCSV] at hrow
    rcases List.mem_map.mp hrow with ⟨line, _, hpl⟩
    rcases parseLineGo_cells line [] false [] with ⟨suf, heq, hne, hcells⟩
    have hrs : row = suf := by
      rw [← hpl, parseLine, heq, List.nil_append]
    constructor
    · rw [hrs]; exact hne
    · intro cell hc
      rcases hcells cell (hrs ▸ hc) with ⟨raw, hraw⟩
      rw [hraw]
      exact noWsEnds_trimChars raw
  · simp only [parseCSV]
    rw [List.length_map]

/-- Witness for C5 at a concrete input. -/
theorem c5_parser_total_witness :
    ([['a'], ['b']] : List (List Char)) ∈ parseCSV ('a' :: ',' :: 'b' :: []) ∧
      (([['a'], ['b']] : List (List Char)) ≠ [] ∧
        ∀ cell ∈ ([['a'], ['b']] : List (List Char)), noWsEnds cell = true) :=
  ⟨by decide, (c5_parser_total ('a' :: ',' :: 'b' :: [])).2.1 [['a'], ['b']] (by decide)⟩

theorem parseLineGo_skip (c : List Char) (hq : ∀ x ∈ c, ¬ x = '"') (hc : ∀ x ∈ c, ¬ x = ',') :
    ∀ (rest cur : List Char) (inQ : Bool) (acc : List (List Char)),
      parseLineGo (c ++ rest) cur inQ acc = parseLineGo rest (cur ++ c) inQ acc := by
  induction c with
  | nil => intro rest cur inQ acc; rw [List.nil_append, List.append_nil]
  | cons x t ih =>
    intro rest cur inQ acc
    have hxq : ¬ x = '"' := hq x (List.mem_cons_self x t)
    have hxc : ¬ x = ',' := hc x (List.mem_cons_self x t)
    rw [List.cons_append, parseLineGo, if_neg hxq, if_neg (by simp [hxc])]
    rw [ih (fun y hy => hq y (List.mem_cons_of_mem x hy))
      (fun y hy => hc y (List.mem_cons_of_mem x hy)) rest (cur ++ [x]) inQ acc]
    rw [List.append_assoc]
    rfl

theorem parseLineGo_quoted (c : List Char) (hq : ∀ x ∈ c, ¬ x = '"') :
    ∀ (rest cur : List Char) (acc : List (List Char)),
      parseLineGo (c ++ rest) cur true acc = parseLineGo rest (cur ++ c) true acc := by
  induction c with
  | nil => intro rest cur acc; rw [List.nil_append, List.append_nil]
  | cons x t ih =>
    intro rest cur acc
    have hxq : ¬ x = '"' := hq x (List.mem_cons_self x t)
    rw [List.cons_append, parseLineGo, if_neg hxq, if_neg (by simp)]
    rw [ih (fun y hy => hq y (List.mem_cons_of_mem x hy)) rest (cur ++ [x]) acc]
    rw [List.append_assoc]
    rfl

theorem serializeRow_parse (cells : List (List Char)) (h : ∀ c ∈ cells, roundTripCell c)
    (hne : cells ≠ []) :
    ∀ acc, parseLineGo (serializeRow cells) [] false acc = acc ++ cells := by
  induction cells with
  | nil => exact absurd rfl hne
  | cons c rest ih =>
    intro acc
    have hc := h c (List.mem_cons_self c rest)
    have hq : ∀ x ∈ c, ¬ x = '"' := fun x hx hxe => (hc.2 x hx).1 hxe
    cases rest with
    | nil =>
      show parseLineGo (serializeRow [c]) [] false acc = acc ++ [c]
      have hser : serializeRow [c] = encodeCell c := rfl
      rw [hser]
      by_cases hcomma : c.contains ','
      · rw [encodeCell, if_pos hcomma]
        rw [show ('"' :: c ++ ['"'] : List Char) = '"' :: (c ++ ['"']) from rfl]
        rw [parseLineGo, if_pos rfl, show (!false) = true from rfl]
        rw [parseLineGo_quoted c hq ['"'] [] acc]
        rw [parseLineGo, if_pos rfl, show (!true) = false from rfl]
        rw [parseLineGo, List.nil_append, hc.1]
      · rw [encodeCell, if_neg hcomma]
        have hcm : ∀ x ∈ c, ¬ x = ',' := by
          intro x hx hxe
          subst hxe
          exact hcomma (List.elem_iff.mpr hx)
        have hskip := parseLineGo_skip c hq hcm [] [] false acc
        rw [List.append_nil, List.nil_append] at hskip
        rw [hskip, parseLineGo, hc.1]
    | cons c2 rest2 =>
      have hser : serializeRow (c :: c2 :: rest2) =
          encodeCell c ++ ',' :: serializeRow (c2 :: rest2) := rfl
      rw [hser]
      have hrec := ih (fun e he => h e (List.mem_cons_of_mem c he))
        (List.cons_ne_nil c2 rest2) (acc ++ [c])
      by_cases hcomma : c.contains ','
      · rw [encodeCell, if_pos hcomma]
        rw [show (('"' :: c ++ ['"']) ++ ',' :: serializeRow (c2 :: rest2) : List Char)
            = '"' :: (c ++ ('"' :: ',' :: serializeRow (c2 :: rest2))) from by simp]
        rw [parseLineGo, if_pos rfl, show (!false) = true from rfl]
        rw [parseLineGo_quoted c hq _ [] acc]
        rw [parseLineGo, if_pos rfl, show (!true) = false from rfl]
        rw [parseLineGo, if_neg (by decide : ¬ (',' : Char) = '"'), if_pos (by simp)]
        rw [List.nil_append, hc.1, hrec, List.append_assoc]
        rfl
      · rw [encodeCell, if_neg hcomma]
        have hcm : ∀ x ∈ c, ¬ x = ',' := by
          intro x hx hxe
          subst hxe
          exact hcomma (List.elem_iff.mpr hx)
        have hskip := parseLineGo_skip c hq hcm (',' :: serializeRow (c2 :: rest2)) [] false acc
        rw [List.nil_append] at hskip
        rw [hskip]
        rw [parseLineGo, if_neg (by decide : ¬ (',' : Char) = '"'), if_pos (by simp)]
        rw [hc.1, hrec, List.append_assoc]
        rfl

theorem splitNL_no_newline (l : List Char) (h : '\n' ∉ l) : splitNL l = [l] := by
  induction l with
  | nil => rfl
  | cons c t ih =>
    have hc : ¬ c = '\n' := fun he => h (he ▸ List.mem_cons_self c t)
    rw [splitNL, if_neg hc, ih (fun hm => h (List.mem_cons_of_mem c hm))]

theorem serializeRow_chars (cells : List (List Char)) :
    ∀ x ∈ serializeRow cells, (∃ c ∈ cells, x ∈ c) ∨ x = ',' ∨ x = '"' := by
  induction cells with
  | nil => intro x hx; cases hx
  | cons c rest ih =>
    have henc : ∀ x ∈ encodeCell c, x ∈ c ∨ x = '"' := by
      intro x hx
      unfold encodeCell at hx
      split at hx
      · rcases List.mem_cons.mp hx with rfl | hx2
        · exact Or.inr rfl
        · rcases List.mem_append.mp hx2 with hx3 | hx3
          · exact Or.inl hx3
          · rw [List.mem_singleton] at hx3; exact Or.inr hx3
      · exact Or.inl hx
    cases rest with
    | nil =>
      intro x hx
      have hx' : x ∈ encodeCell c := hx
      rcases henc x hx' with h1 | h1
      · exact Or.inl ⟨c, List.mem_cons_self c [], h1⟩
      · exact Or.inr (Or.inr h1)
    | cons c2 rest2 =>
      intro x hx
      have hx' : x ∈ encodeCell c ++ ',' :: serializeRow (c2 :: rest2) := hx
      rcases List.mem_append.mp hx' with h1 | h1
      · rcases henc x h1 with h2 | h2
        · exact Or.inl ⟨c, List.mem_cons_self c _, h2⟩
        · exact Or.inr (Or.inr h2)
      · rcases List.mem_cons.mp h1 with rfl | h2
        · exact Or.inr (Or.inl rfl)
        · rcases ih x h2 with ⟨e, he, hxe⟩ | h3
          · exact Or.inl ⟨e, List.mem_cons_of_mem c he, hxe⟩
          · exact Or.inr h3

theorem trimChars_eq_nil (l : List Char) (h : trimChars l = []) : ∀ x ∈ l, jsWs x = true := by
  unfold trimChars at h
  rw [List.reverse_eq_nil_iff] at h
  have hall : ∀ x ∈ (l.dropWhile jsWs).reverse, jsWs x = true := by
    intro x hx
    exact List.dropWhile_eq_nil_iff.mp h x hx
  have hdrop : ∀ x ∈ l.dropWhile jsWs, jsWs x = true := by
    intro x hx
    exact hall x (List.mem_reverse.mpr hx)
  intro x hx
  rw [← @List.takeWhile_append_dropWhile _ jsWs l] at hx
  rcases List.mem_append.mp hx with h1 | h1
  · exact List.mem_takeWhile_imp h1
  · exact hdrop x h1

/-- C6 (amended): for every non-empty row, other than the single-empty-cell
row, whose cells are trimmed and contain no quote, newline or carriage
return, serializing the row and parsing it back yields exactly that row. -/
theorem c6_round_trip (cells : List (List Char)) (hne : cells ≠ [])
    (hsingle : cells ≠ [[]]) (h : ∀ c ∈ cells, roundTripCell c) :
    parseCSV (serializeRow cells) = [cells] := by
  have hchars := serializeRow_chars cells
  have hnoCR : ∀ x ∈ serializeRow cells, (!(x = '\r') : Bool) = true := by
    intro x hx
    rcases hchars x hx with ⟨c, hcmem, hxc⟩ | rfl | rfl
    · simp [((h c hcmem).2 x hxc).2.2]
    · decide
    · decide
  have hfilter : (serializeRow cells).filter (fun c => !(c = '\r')) = serializeRow cells :=
    List.filter_eq_self.mpr hnoCR
  have hnoNL : '\n' ∉ serializeRow cells := by
    intro hmem
    rcases hchars '\n' hmem with ⟨c, hcmem, hxc⟩ | h1 | h1
    · exact ((h c hcmem).2 _ hxc).2.1 rfl
    · exact absurd h1 (by decide)
    · exact absurd h1 (by decide)
  have hsplit : splitNL (serializeRow cells) = [serializeRow cells] :=
    splitNL_no_newline _ hnoNL
  have hnonblank : ∃ x ∈ serializeRow cells, jsWs x = false := by
    cases cells with
    | nil => exact absurd rfl hne
    | cons c rest =>
      cases rest with
      | nil =>
        by_cases hcomma : c.contains ','
        · refine ⟨'"', ?_, by decide⟩
          show '"' ∈ serializeRow [c]
          have hser : serializeRow [c] = encodeCell c := rfl
          rw [hser, encodeCell, if_pos hcomma]
          exact List.mem_cons_self _ _
        · cases c with
          | nil => exact absurd rfl hsingle
          | cons y t =>
            have htr : trimChars (y :: t) = y :: t :=
              (h (y :: t) (List.mem_cons_self _ [])).1
            have hnws : noWsEnds (y :: t) = true := htr ▸ noWsEnds_trimChars (y :: t)
            have hy : jsWs y = false := by
              cases hws : jsWs y
              · rfl
              · unfold noWsEnds at hnws
                simp [hws] at hnws
            refine ⟨y, ?_, hy⟩
            show y ∈ serializeRow [y :: t]
            have hser : serializeRow [y :: t] = encodeCell (y :: t) := rfl
            rw [hser, encodeCell, if_neg hcomma]
            exact List.mem_cons_self _ _
      | cons c2 rest2 =>
        refine ⟨',', ?_, by decide⟩
        show ',' ∈ serializeRow (c :: c2 :: rest2)
        have hser : serializeRow (c :: c2 :: rest2) =
            encodeCell c ++ ',' :: serializeRow (c2 :: rest2) := rfl
        rw [hser]
        exact List.mem_append.mpr (Or.inr (List.mem_cons_self _ _))
  have htrim : ¬ (trimChars (serializeRow cells)).isEmpty = true := by
    intro h0
    rcases hnonblank with ⟨x, hx, hws⟩
    have h1 : trimChars (serializeRow cells) = [] := by
      cases he : trimChars (serializeRow cells) with
      | nil => rfl
      | cons a b => rw [he] at h0; cases h0
    rw [trimChars_eq_nil _ h1 x hx] at hws
    cases hws
  simp only [parseCSV]
  rw [hfilter, hsplit]
  rw [List.filter_cons_of_pos (by simpa using htrim), List.filter_nil]
  rw [List.map_cons, List.map_nil, parseLine, serializeRow_parse cells h hne []]
  rw [List.nil_append]

/-- Witness for C6 at a concrete two-cell row with a quoted comma. -/
theorem c6_round_trip_witness :
    (([['a'], ['b', ',', 'c']] : List (List Char)) ≠ []) ∧
      (([['a'], ['b', ',', 'c']] : List (List Char)) ≠ [[]]) ∧
      (∀ c ∈ ([['a'], ['b', ',', 'c']] : List (List Char)), roundTripCell c) ∧
      parseCSV (serializeRow [['a'], ['b', ',', 'c']]) = [[['a'], ['b', ',', 'c']]] :=
  ⟨by decide, by decide, by decide,
    c6_round_trip [['a'], ['b', ',', 'c']] (by decide) (by decide) (by decide)⟩

/-- C6 counterexample: the round trip fails as universally claimed — an
untrimmed cell comes back trimmed, the single-empty-cell row vanishes as a
blank line, and quote/newline characters inside cells break the row. -/
theorem c6_round_trip_counterexample :
    parseCSV (serializeRow [[' ', 'a']]) ≠ [[[' ', 'a']]] ∧
      parseCSV (serializeRow [[]]) ≠ [[([] : List Char)]] ∧
      parseCSV (serializeRow [['a', '"', 'b']]) ≠ [[['a', '"', 'b']]] ∧
      parseCSV (serializeRow [['a', '\n', 'b']]) ≠ [[['a', '\n', 'b']]] :=
  ⟨by decide, by decide, by decide, by decide⟩

theorem lookup_mem (cache : List (List Char × LeagueUrls)) (k : List Char) (v : LeagueUrls)
    (h : cache.lookup k = some v) : (k, v) ∈ cache := by
  induction cache with
  | nil => cases h
  | cons e rest ih =>
    rw [List.lookup] at h
    by_cases he : (k == e.1) = true
    · rw [he] at h
      cases h
      have hk : k = e.1 := by simpa using he
      rw [hk]
      left
    · rw [Bool.not_eq_true] at he
      rw [he] at h
      exact List.mem_cons_of_mem _ (ih h)

theorem findLeagueRow_eq_none (nm : List Char) (hm : List Char → Option Nat)
    (rs : List (List (List Char)))
    (h : ∀ row ∈ rs, getTrimmed row colLEAGUE hm = [] ∨
      lowerChars (getTrimmed row colLEAGUE hm) ≠ lowerChars nm) :
    findLeagueRow nm hm rs = none := by
  induction rs with
  | nil => rfl
  | cons row rest ih =>
    have ihr := ih (fun r hr => h r (List.mem_cons_of_mem row hr))
    simp only [findLeagueRow]
    rcases h row (List.mem_cons_self row rest) with h1 | h1
    · rw [h1]
      simpa using ihr
    · by_cases h2 : (getTrimmed row colLEAGUE hm).isEmpty
      · rw [if_pos h2]
        exact ihr
      · rw [if_neg h2, if_neg h1]
        exact ihr

/-- C4: league registry resolution throws (and never returns a partially
populated result) when the league name is blank, the fetch fails, the parsed
registry is empty, no row's `LEAGUE` cell matches the name
case-insensitively, or the matched row has a blank required column; a
successful resolution carries six non-blank locations and is cached under
the league name. -/
theorem c4_registry_resolution (name : List Char) (cache : List (List Char × LeagueUrls))
    (fetch : Except (List Char) (List Char)) (hwf : cacheWF cache) :
    (trimChars name = [] → throws (getLeagueCsvUrls name cache fetch)) ∧
    (cache.lookup (trimChars name) = none → ∀ e, fetch = Except.error e →
      throws (getLeagueCsvUrls name cache fetch)) ∧
    (cache.lookup (trimChars name) = none → ∀ t, fetch = Except.ok t → parseCSV t = [] →
      throws (getLeagueCsvUrls name cache fetch)) ∧
    (cache.lookup (trimChars name) = none → ∀ t r rs, fetch = Except.ok t →
      parseCSV t = r :: rs →
      (∀ row ∈ rs, getTrimmed row colLEAGUE (createHeaderMap r) = [] ∨
        lowerChars (getTrimmed row colLEAGUE (createHeaderMap r)) ≠
          lowerChars (trimChars name)) →
      throws (getLeagueCsvUrls name cache fetch)) ∧
    (cache.lookup (trimChars name) = none → ∀ t r rs row, fetch = Except.ok t →
      parseCSV t = r :: rs →
      findLeagueRow (trimChars name) (createHeaderMap r) rs = some row →
      (getTrimmed row colDIVISION (createHeaderMap r) = [] ∨
        getTrimmed row colTEAM (createHeaderMap r) = [] ∨
        getTrimmed row colSCHEDULE (createHeaderMap r) = [] ∨
        getTrimmed row colSTANDINGS (createHeaderMap r) = [] ∨
        getTrimmed row colGOALIE (createHeaderMap r) = [] ∨
        getTrimmed row colPLAYER (createHeaderMap r) = []) →
      throws (getLeagueCsvUrls name cache fetch)) ∧
    (∀ urls cache2, getLeagueCsvUrls name cache fetch = Except.ok (urls, cache2) →
      (urls.divisionUrl ≠ [] ∧ urls.teamUrl ≠ [] ∧ urls.scheduleUrl ≠ [] ∧
        urls.standingsUrl ≠ [] ∧ urls.goalieUrl ≠ [] ∧ urls.playerUrl ≠ []) ∧
      cache2.lookup (trimChars name) = some urls ∧ cacheWF cache2) := by
  refine ⟨?_, ?_, ?_, ?_, ?_, ?_⟩
  · intro h
    refine ⟨("Base folder name is missing - cannot resolve league row in master sheet.".toList), ?_⟩
    simp only [getLeagueCsvUrls, h, List.isEmpty_nil, if_true]
  · intro hlook e hfetch
    by_cases hne : (trimChars name).isEmpty = true
    · exact ⟨("Base folder name is missing - cannot resolve league row in master sheet.".toList), by simp only [getLeagueCsvUrls, if_pos hne]⟩
    · refine ⟨e, ?_⟩
      simp only [getLeagueCsvUrls, if_neg hne, hlook, hfetch]
  · intro hlook t hfetch hrows
    by_cases hne : (trimChars name).isEmpty = true
    · exact ⟨("Base folder name is missing - cannot resolve league row in master sheet.".toList), by simp only [getLeagueCsvUrls, if_pos hne]⟩
    · refine ⟨("Master league sheet is empty.".toList), ?_⟩
      simp only [getLeagueCsvUrls, if_neg hne, hlook, hfetch, hrows, List.isEmpty_nil,
        if_true]
  · intro hlook t r rs hfetch hrows hnomatch
    by_cases hne : (trimChars name).isEmpty = true
    · exact ⟨("Base folder name is missing - cannot resolve league row in master sheet.".toList), by simp only [getLeagueCsvUrls, if_pos hne]⟩
    · have hfind : findLeagueRow (trimChars name) (createHeaderMap r) rs = none :=
        findLeagueRow_eq_none _ _ rs hnomatch
      refine ⟨("League not found or URLs missing in master league sheet.".toList), ?_⟩
      simp only [getLeagueCsvUrls, if_neg hne, hlook, hfetch, hrows, List.isEmpty_cons,
        List.headD_cons, List.tail_cons, hfind, List.isEmpty_nil, Bool.false_eq_true,
        if_false, Bool.true_or, if_true]
  · intro hlook t r rs row hfetch hrows hfind h6
    by_cases hne : (trimChars name).isEmpty = true
    · exact ⟨("Base folder name is missing - cannot resolve league row in master sheet.".toList), by simp only [getLeagueCsvUrls, if_pos hne]⟩
    · refine ⟨("League not found or URLs missing in master league sheet.".toList), ?_⟩
      rcases h6 with h6 | h6 | h6 | h6 | h6 | h6 <;>
        simp only [getLeagueCsvUrls, if_neg hne, hlook, hfetch, hrows, List.isEmpty_cons,
          List.headD_cons, List.tail_cons, hfind, h6, List.isEmpty_nil, Bool.false_eq_true,
          if_false, Bool.true_or, Bool.or_true, if_true]
  · intro urls cache2 hok
    by_cases hne : (trimChars name).isEmpty = true
    · simp only [getLeagueCsvUrls, if_pos hne] at hok
      cases hok
    · cases hlook : cache.lookup (trimChars name) with
      | some u =>
        simp only [getLeagueCsvUrls, if_neg hne, hlook] at hok
        have hpair : (u, cache) = (urls, cache2) := Except.ok.inj hok
        have hu : u = urls := congrArg Prod.fst hpair
        have hcc : cache = cache2 := congrArg Prod.snd hpair
        subst hu
        rw [← hcc]
        have hmem := lookup_mem cache (trimChars name) u hlook
        exact ⟨hwf _ hmem, hlook, hwf⟩
      | none =>
        cases hfetch : fetch with
        | error e =>
          simp only [getLeagueCsvUrls, if_neg hne, hlook, hfetch] at hok
          cases hok
        | ok t =>
          cases hrows : parseCSV t with
          | nil =>
            simp only [getLeagueCsvUrls, if_neg hne, hlook, hfetch, hrows,
              List.isEmpty_nil, if_true] at hok
            cases hok
          | cons r rs =>
            cases hfind : findLeagueRow (trimChars name) (createHeaderMap r) rs with
            | none =>
              simp only [getLeagueCsvUrls, if_neg hne, hlook, hfetch, hrows,
                List.isEmpty_cons, List.headD_cons, List.tail_cons, hfind,
                List.isEmpty_nil, Bool.false_eq_true, if_false, Bool.true_or,
                if_true] at hok
              cases hok
            | some row =>
              by_cases hblank : ((getTrimmed row colDIVISION (createHeaderMap r)).isEmpty ||
                  (getTrimmed row colTEAM (createHeaderMap r)).isEmpty ||
                  (getTrimmed row colSCHEDULE (createHeaderMap r)).isEmpty ||
                  (getTrimmed row colSTANDINGS (createHeaderMap r)).isEmpty ||
                  (getTrimmed row colGOALIE (createHeaderMap r)).isEmpty ||
                  (getTrimmed row colPLAYER (createHeaderMap r)).isEmpty) = true
              · simp only [getLeagueCsvUrls, if_neg hne, hlook, hfetch, hrows,
                  List.isEmpty_cons, List.headD_cons, List.tail_cons, hfind,
                  Bool.false_eq_true, if_false, hblank, if_true] at hok
                cases hok
              · simp only [getLeagueCsvUrls, if_neg hne, hlook, hfetch, hrows,
                  List.isEmpty_cons, List.headD_cons, List.tail_cons, hfind,
                  Bool.false_eq_true, if_false, hblank, if_false] at hok
                have hpair := Except.ok.inj hok
                have hu := congrArg Prod.fst hpair
                have hcc := congrArg Prod.snd hpair
                simp only at hu hcc
                simp only [Bool.or_eq_true, not_or] at hblank
                obtain ⟨⟨⟨⟨⟨h1, h2⟩, h3⟩, h4⟩, h5⟩, h6⟩ := hblank
                have hne' : ∀ (l : List Char), ¬ l.isEmpty = true → l ≠ [] := by
                  intro l hl he
                  rw [he] at hl
                  exact hl rfl
                constructor
                · rw [← hu]
                  exact ⟨hne' _ h1, hne' _ h2, hne' _ h3, hne' _ h4, hne' _ h5, hne' _ h6⟩
                constructor
                · rw [← hcc, ← hu]
                  simp [List.lookup]
                · rw [← hcc]
                  intro entry hentry
                  rcases List.mem_cons.mp hentry with rfl | hentry2
                  · exact ⟨hne' _ h1, hne' _ h2, hne' _ h3, hne' _ h4, hne' _ h5, hne' _ h6⟩
                  · exact hwf entry hentry2

/-- Witness for C4: blank league name at a concrete cache and fetch result. -/
theorem c4_registry_resolution_witness :
    cacheWF ([] : List (List Char × LeagueUrls)) ∧ trimChars [' '] = [] ∧
      throws (getLeagueCsvUrls [' '] [] (Except.error [])) :=
  ⟨fun e he => absurd he (List.not_mem_nil e), by decide,
    (c4_registry_resolution [' '] [] (Except.error [])
      (fun e he => absurd he (List.not_mem_nil e))).1 (by decide)⟩

theorem ceilDiv_le_mul (n m : Nat) (hm : 1 ≤ m) : n ≤ ceilDiv n m * m := by
  unfold ceilDiv
  have hdm := Nat.div_add_mod (n + m - 1) m
  have hmod := Nat.mod_lt (n + m - 1) (show 0 < m by omega)
  rw [Nat.mul_comm]
  omega

theorem ceilDiv_pred_mul_lt (n m : Nat) (hm : 1 ≤ m) (hn : 1 ≤ n) :
    (ceilDiv n m - 1) * m < n := by
  unfold ceilDiv
  have hdm := Nat.div_add_mod (n + m - 1) m
  have hmod := Nat.mod_lt (n + m - 1) (show 0 < m by omega)
  rw [Nat.sub_mul, Nat.one_mul, Nat.mul_comm]
  omega

theorem ceilDiv_le_of_le (n k b : Nat) (hk : 1 ≤ k) (h : n ≤ b * k) : ceilDiv n k ≤ b := by
  unfold ceilDiv
  by_contra hcon
  push_neg at hcon
  have h2 : (b + 1) * k ≤ n + k - 1 :=
    (Nat.le_div_iff_mul_le (show 0 < k by omega)).mp hcon
  rw [Nat.add_mul, Nat.one_mul] at h2
  omega

theorem chunkLoop_spec {α : Type} (l : List α) (s k : Nat)
    (hs : 1 ≤ s) (hlast : (k - 1) * s < l.length) (hle : l.length ≤ k * s) :
    ∀ (j c : Nat), c + j = k → 1 ≤ j →
      ∀ acc, chunkLoop l l.length s k (List.range' c j) (c * s) acc =
        acc ++ (List.range' c (j - 1)).map
          (fun i => (l.take ((i + 1) * s)).drop (i * s)) ++
          [(l.take l.length).drop ((k - 1) * s)] := by
  intro j
  induction j with
  | zero => intro c hck hj acc; exact absurd hj (by omega)
  | succ j ih =>
    intro c hck hj acc
    rw [List.range'_succ, chunkLoop]
    cases Nat.eq_zero_or_pos j with
    | inl hj0 =>
      subst hj0
      have hc : c = k - 1 := by omega
      rw [if_pos hc]
      have hlen : ((l.take l.length).drop (c * s)).length = l.length - c * s := by
        rw [List.length_drop, List.length_take, Nat.min_self]
      have hne : ¬ ((l.take l.length).drop (c * s)).isEmpty = true := by
        intro he
        rw [List.isEmpty_iff] at he
        have hlen0 := congrArg List.length he
        rw [hlen] at hlen0
        simp at hlen0
        rw [hc] at hlen0
        omega
      rw [if_neg hne]
      show chunkLoop l l.length s k [] l.length (acc ++ [(l.take l.length).drop (c * s)]) = _
      rw [chunkLoop, hc]
      simp
    | inr hjpos =>
      have hck1 : ¬ (c = k - 1) := by omega
      rw [if_neg hck1]
      have hcs : c * s + s = (c + 1) * s := by ring
      have hlt : (c + 1) * s ≤ l.length := by
        have h1 : (c + 1) * s ≤ (k - 1) * s := Nat.mul_le_mul_right s (by omega)
        omega
      have hlen : ((l.take (c * s + s)).drop (c * s)).length = s := by
        rw [List.length_drop, List.length_take]
        omega
      have hne : ¬ ((l.take (c * s + s)).drop (c * s)).isEmpty = true := by
        intro he
        rw [List.isEmpty_iff] at he
        have hlen0 := congrArg List.length he
        rw [hlen] at hlen0
        simp at hlen0
        omega
      rw [if_neg hne]
      rw [hcs]
      have hrec := ih (c + 1) (by omega) (by omega)
        (acc ++ [(l.take ((c + 1) * s)).drop (c * s)])
      rw [hrec]
      rw [show (j + 1 - 1) = (j - 1) + 1 from by omega, List.range'_succ]
      rw [List.map_cons]
      simp [List.append_assoc]

theorem drop_take_append_drop {α : Type} (l : List α) (a b : Nat) (hab : a ≤ b) :
    (l.take b).drop a ++ l.drop b = l.drop a := by
  rw [List.drop_take]
  have hb : l.drop b = (l.drop a).drop (b - a) := by
    rw [List.drop_drop]
    congr 1
    omega
  rw [hb, List.take_append_drop]

theorem slices_join {α : Type} (l : List α) (s : Nat) :
    ∀ (t c : Nat),
      ((List.range' c t).map (fun i => (l.take ((i + 1) * s)).drop (i * s))).flatten ++
        l.drop ((c + t) * s) = l.drop (c * s) := by
  intro t
  induction t with
  | zero => intro c; simp
  | succ t ih =>
    intro c
    rw [List.range'_succ, List.map_cons, List.flatten_cons, List.append_assoc]
    have hstep := ih (c + 1)
    rw [show (c + 1 + t) = (c + (t + 1)) from by omega] at hstep
    rw [hstep]
    exact drop_take_append_drop l (c * s) ((c + 1) * s) (Nat.mul_le_mul_right s (by omega))

theorem chunkStandings_spec {α : Type} (l : List α) (m : Nat) (hm : 1 ≤ m)
    (h : m < l.length) :
    chunkStandings l m =
      (List.range' 0 (ceilDiv l.length m - 1)).map
        (fun i => (l.take ((i + 1) * ceilDiv l.length (ceilDiv l.length m))).drop
          (i * ceilDiv l.length (ceilDiv l.length m))) ++
      [l.drop ((ceilDiv l.length m - 1) * ceilDiv l.length (ceilDiv l.length m))] := by
  have hn1 : 1 ≤ l.length := by omega
  have hk2 : 2 ≤ ceilDiv l.length m := by
    unfold ceilDiv
    have h2m : 2 * m ≤ l.length + m - 1 := by omega
    have hdiv : 2 * m / m ≤ (l.length + m - 1) / m := Nat.div_le_div_right h2m
    rw [Nat.mul_div_cancel 2 (show 0 < m by omega)] at hdiv
    exact hdiv
  have hk1 : 1 ≤ ceilDiv l.length m := by omega
  have hnks : l.length ≤ ceilDiv l.length (ceilDiv l.length m) * ceilDiv l.length m :=
    ceilDiv_le_mul l.length (ceilDiv l.length m) hk1
  have hs1 : 1 ≤ ceilDiv l.length (ceilDiv l.length m) := by
    by_contra hcon
    push_neg at hcon
    have h0 : ceilDiv l.length (ceilDiv l.length m) = 0 := by omega
    rw [h0, Nat.zero_mul] at hnks
    omega
  have hsm : ceilDiv l.length (ceilDiv l.length m) ≤ m := by
    apply ceilDiv_le_of_le l.length (ceilDiv l.length m) m hk1
    have := ceilDiv_le_mul l.length m hm
    rw [Nat.mul_comm] at this
    exact this
  have hlast : (ceilDiv l.length m - 1) * ceilDiv l.length (ceilDiv l.length m) < l.length := by
    calc (ceilDiv l.length m - 1) * ceilDiv l.length (ceilDiv l.length m)
        ≤ (ceilDiv l.length m - 1) * m := Nat.mul_le_mul_left _ hsm
      _ < l.length := ceilDiv_pred_mul_lt l.length m hm hn1
  have hle : l.length ≤ ceilDiv l.length m * ceilDiv l.length (ceilDiv l.length m) := by
    rw [Nat.mul_comm]
    exact hnks
  unfold chunkStandings
  rw [if_neg (by omega)]
  show chunkLoop l l.length (ceilDiv l.length (ceilDiv l.length m)) (ceilDiv l.length m)
    (List.range (ceilDiv l.length m)) 0 [] = _
  rw [List.range_eq_range']
  have hloop := chunkLoop_spec l (ceilDiv l.length (ceilDiv l.length m)) (ceilDiv l.length m)
    hs1 hlast hle (ceilDiv l.length m) 0 (by omega) (by omega) []
  rw [Nat.zero_mul] at hloop
  rw [hloop, List.nil_append, List.take_length]

theorem chunk_facts (n m : Nat) (hm : 1 ≤ m) (h : m < n) :
    2 ≤ ceilDiv n m ∧ 1 ≤ ceilDiv n (ceilDiv n m) ∧
    ceilDiv n (ceilDiv n m) ≤ m ∧
    (ceilDiv n m - 1) * ceilDiv n (ceilDiv n m) < n ∧
    n ≤ ceilDiv n m * ceilDiv n (ceilDiv n m) := by
  have hn1 : 1 ≤ n := by omega
  have hk2 : 2 ≤ ceilDiv n m := by
    unfold ceilDiv
    have h2m : 2 * m ≤ n + m - 1 := by omega
    have hdiv : 2 * m / m ≤ (n + m - 1) / m := Nat.div_le_div_right h2m
    rw [Nat.mul_div_cancel 2 (show 0 < m by omega)] at hdiv
    exact hdiv
  have hk1 : 1 ≤ ceilDiv n m := by omega
  have hnks : n ≤ ceilDiv n (ceilDiv n m) * ceilDiv n m :=
    ceilDiv_le_mul n (ceilDiv n m) hk1
  have hs1 : 1 ≤ ceilDiv n (ceilDiv n m) := by
    by_contra hcon
    push_neg at hcon
    have h0 : ceilDiv n (ceilDiv n m) = 0 := by omega
    rw [h0, Nat.zero_mul] at hnks
    omega
  have hsm : ceilDiv n (ceilDiv n m) ≤ m := by
    apply ceilDiv_le_of_le n (ceilDiv n m) m hk1
    have := ceilDiv_le_mul n m hm
    rw [Nat.mul_comm] at this
    exact this
  have hlast : (ceilDiv n m - 1) * ceilDiv n (ceilDiv n m) < n := by
    calc (ceilDiv n m - 1) * ceilDiv n (ceilDiv n m)
        ≤ (ceilDiv n m - 1) * m := Nat.mul_le_mul_left _ hsm
      _ < n := ceilDiv_pred_mul_lt n m hm hn1
  have hle : n ≤ ceilDiv n m * ceilDiv n (ceilDiv n m) := by
    rw [Nat.mul_comm]
    exact hnks
  exact ⟨hk2, hs1, hsm, hlast, hle⟩

/-- C1: the balanced chunk partitioner is lossless and order-preserving, a
collection no larger than the maximum is returned as a single chunk, no
chunk ever exceeds the maximum, and otherwise all chunks have size
`chunkSize = ceil(n / numChunks)` except the last, which is no larger;
concretely 19, 12 and 5 items at maximum 9 give sizes `[7, 7, 5]`, `[6, 6]`
and `[5]`. -/
theorem c1_chunk_partitioner :
    (∀ (α : Type) (items : List α) (maxPerChunk : Nat), 1 ≤ maxPerChunk →
      (chunkStandings items maxPerChunk).flatten = items ∧
      (∀ ch ∈ chunkStandings items maxPerChunk, ch.length ≤ maxPerChunk) ∧
      (items.length ≤ maxPerChunk → chunkStandings items maxPerChunk = [items]) ∧
      (maxPerChunk < items.length →
        (chunkStandings items maxPerChunk).map List.length =
          List.replicate (ceilDiv items.length maxPerChunk - 1)
            (ceilDiv items.length (ceilDiv items.length maxPerChunk)) ++
          [items.length - (ceilDiv items.length maxPerChunk - 1) *
            ceilDiv items.length (ceilDiv items.length maxPerChunk)] ∧
        items.length - (ceilDiv items.length maxPerChunk - 1) *
            ceilDiv items.length (ceilDiv items.length maxPerChunk) ≤
          ceilDiv items.length (ceilDiv items.length maxPerChunk))) ∧
    (chunkStandings (List.range 19) 9).map List.length = [7, 7, 5] ∧
    (chunkStandings (List.range 12) 9).map List.length = [6, 6] ∧
    (chunkStandings (List.range 5) 9).map List.length = [5] := by
  refine ⟨?_, by decide, by decide, by decide⟩
  intro α items mx hmx
  by_cases hle : items.length ≤ mx
  · have hform : chunkStandings items mx = [items] := by
      unfold chunkStandings
      rw [if_pos hle]
    refine ⟨?_, ?_, fun _ => hform, fun hcon => absurd hcon (by omega)⟩
    · rw [hform]
      simp
    · intro ch hch
      rw [hform, List.mem_singleton] at hch
      rw [hch]
      exact hle
  · push_neg at hle
    have hform := chunkStandings_spec items mx hmx hle
    obtain ⟨hk2, hs1, hsm, hlast, hles⟩ := chunk_facts items.length mx hmx hle
    set k := ceilDiv items.length mx with hkdef
    set s := ceilDiv items.length k with hsdef
    have hkexp : (k - 1) * s + s = k * s := by
      have : k - 1 + 1 = k := by omega
      calc (k - 1) * s + s = (k - 1 + 1) * s := by ring
        _ = k * s := by rw [this]
    have hslice_len : ∀ i, i < k - 1 →
        ((items.take ((i + 1) * s)).drop (i * s)).length = s := by
      intro i hi
      have hiub : (i + 1) * s ≤ items.length := by
        have h1 : (i + 1) * s ≤ (k - 1) * s := Nat.mul_le_mul_right _ (by omega)
        omega
      rw [List.length_drop, List.length_take, Nat.min_eq_left hiub]
      have hexp : (i + 1) * s = i * s + s := by ring
      omega
    constructor
    · rw [hform, List.flatten_append]
      have hj := slices_join items s (k - 1) 0
      rw [Nat.zero_add, Nat.zero_mul, List.drop_zero] at hj
      simp only [List.flatten_cons, List.flatten_nil, List.append_nil]
      exact hj
    constructor
    · intro ch hch
      rw [hform] at hch
      rcases List.mem_append.mp hch with hch | hch
      · rcases List.mem_map.mp hch with ⟨i, hi, hchi⟩
        have hi' := List.mem_range'_1.mp hi
        rw [← hchi]
        rw [hslice_len i (by omega)]
        exact hsm
      · rw [List.mem_singleton] at hch
        rw [hch, List.length_drop]
        omega
    constructor
    · intro hcon
      omega
    · intro _
      constructor
      · rw [hform, List.map_append]
        congr 1
        · rw [List.map_map]
          refine List.eq_replicate_iff.mpr ⟨?_, ?_⟩
          · rw [List.length_map, List.length_range']
          · intro b hb
            rcases List.mem_map.mp hb with ⟨i, hi, hchi⟩
            have hi' := List.mem_range'_1.mp hi
            rw [← hchi]
            exact hslice_len i (by omega)
        · rw [List.map_cons, List.map_nil, List.length_drop]
      · omega

/-- Witness for C1 at 19 items and maximum 9. -/
theorem c1_chunk_partitioner_witness :
    1 ≤ 9 ∧ (chunkStandings (List.range 19) 9).flatten = List.range 19 :=
  ⟨by decide, (c1_chunk_partitioner.1 Nat (List.range 19) 9 (by decide)).1⟩

end Stribe
